import Mathlib

/-!
Verification of the markdown/rich-text conversion core of the Kulsi-AI
note-taking application.

The development shallowly embeds the relevant JavaScript source files:

* `src/src/components/TipTapEditor.jsx` — the `markdownToHtml` regex
  pipeline (block+inline decode to an HTML string), the DOM-walking
  `htmlToMarkdown` encoder, the `onUpdate` checkbox-suppression logic, and
  the imperative command handle exposed through `useImperativeHandle`.
* `src/src/components/Editor.jsx` — the bounded undo/redo history stack
  (`updateContentWithHistory` / `undo` / `redo`) and the selection-aware
  `insertText` wrap/unwrap logic for the plain-textarea path.

JavaScript strings are modelled as `List Char` (with `String` wrappers at
the boundaries); each JS regex replacement is modelled by a dedicated
scanner that mirrors that regex's exact matching semantics (leftmost
match, greedy/lazy as written, `.` not matching newlines, per-line
behavior of the `m` flag).  Scanners use explicit fuel (initialised to
more than the input length; every match consumes at least one character)
so that all definitions are plainly total and executable.
-/

/-! ## Basic character/string helpers -/

/-- Whitespace class mirroring the common members of JS `\s`
(space, tab, newline, carriage return, vertical tab, form feed). -/
def isWsChar (c : Char) : Bool :=
  c = ' ' || c = '\t' || c = '\n' || c = '\r' || c.val = 11 || c.val = 12

/-- `l₁` is a prefix of `l₂` (executable). -/
def isPrefixL : List Char → List Char → Bool
  | [], _ => true
  | _ :: _, [] => false
  | a :: as, b :: bs => a = b && isPrefixL as bs

/-- Length of the maximal leading run of characters satisfying `p`. -/
def leadCount (p : Char → Bool) : List Char → Nat
  | [] => 0
  | c :: cs => if p c then leadCount p cs + 1 else 0

/-- JS `String.prototype.trim` on a character list. -/
def trimL (cs : List Char) : List Char :=
  ((cs.dropWhile (fun c => isWsChar c)).reverse.dropWhile
    (fun c => isWsChar c)).reverse

/-- Earliest index at which `pat` occurs in the list, if any. -/
def findSubIdx (pat : List Char) : List Char → Option Nat
  | [] => if pat = [] then some 0 else none
  | c :: cs =>
      if isPrefixL pat (c :: cs) then some 0
      else (findSubIdx pat cs).map (· + 1)

/-- Earliest index at which `pat` occurs, with no newline strictly before
the occurrence (mirrors a lazy `.` run, which cannot cross newlines,
followed by the literal `pat`). -/
def findSubIdxNoNl (pat : List Char) : List Char → Option Nat
  | [] => if pat = [] then some 0 else none
  | c :: cs =>
      if isPrefixL pat (c :: cs) then some 0
      else if c = '\n' then none
      else (findSubIdxNoNl pat cs).map (· + 1)

/-- Executable substring test (`hay` contains `needle`). -/
def containsSub (needle hay : List Char) : Bool :=
  (findSubIdx needle hay).isSome

/-- String-level wrapper for `containsSub`. -/
def containsSubS (needle hay : String) : Bool :=
  containsSub needle.data hay.data

/-- JS `String.prototype.trim` at the `String` level. -/
def trimS (s : String) : String := String.mk (trimL s.data)

/-- String-level prefix test. -/
def isPrefixS (p s : String) : Bool := isPrefixL p.data s.data

/-- Decimal digits to a number. -/
def digitsToNat (cs : List Char) : Nat :=
  cs.foldl (fun acc c => acc * 10 + (c.toNat - 48)) 0

/-! ## History stack (`Editor.jsx`)

`updateContentWithHistory` / `undo` / `redo` together with the component
state `history` (array of markdown snapshots), `historyIndex`, and the
visible `content` string.  On opening a note the stack is initialised to
the single snapshot `[note.content]` at index 0. -/

namespace EditorHistory

/-- State of the `Editor` component relevant to undo/redo:
`history`, `historyIndex`, and `content` from `Editor.jsx`. -/
structure HistState where
  history : List String
  historyIndex : Nat
  content : String
  deriving DecidableEq, Repr

/-- Initial state on opening a note (`useState([note.content])`,
`useState(0)` in `Editor.jsx`). -/
def initState (c0 : String) : HistState :=
  { history := [c0], historyIndex := 0, content := c0 }

/-- `updateContentWithHistory` from `Editor.jsx`: no-op when the new
content equals the current content; otherwise truncate after the current
index, append, drop the oldest entry (`shift()`) when the stack exceeds
50 entries, and point the index at the last entry. -/
def updateContentWithHistory (st : HistState) (newContent : String) :
    HistState :=
  if newContent = st.content then st
  else if (st.history.take (st.historyIndex + 1) ++ [newContent]).length > 50
  then
    { history := (st.history.take (st.historyIndex + 1) ++ [newContent]).tail
      historyIndex :=
        (st.history.take (st.historyIndex + 1) ++ [newContent]).tail.length - 1
      content := newContent }
  else
    { history := st.history.take (st.historyIndex + 1) ++ [newContent]
      historyIndex :=
        (st.history.take (st.historyIndex + 1) ++ [newContent]).length - 1
      content := newContent }

/-- `undo` from `Editor.jsx`: decrement the index when positive and show
the entry there; otherwise do nothing. -/
def undo (st : HistState) : HistState :=
  if st.historyIndex > 0 then
    { st with historyIndex := st.historyIndex - 1
              content := st.history.getD (st.historyIndex - 1) "" }
  else st

/-- `redo` from `Editor.jsx`: increment the index when not at the last
entry and show the entry there; otherwise do nothing. -/
def redo (st : HistState) : HistState :=
  if st.historyIndex < st.history.length - 1 then
    { st with historyIndex := st.historyIndex + 1
              content := st.history.getD (st.historyIndex + 1) "" }
  else st

/-- States reachable from some freshly-opened note by the three
operations. -/
inductive Reach : HistState → Prop where
  | start (c0 : String) : Reach (initState c0)
  | step_record {st : HistState} (X : String) :
      Reach st → Reach (updateContentWithHistory st X)
  | step_undo {st : HistState} : Reach st → Reach (undo st)
  | step_redo {st : HistState} : Reach st → Reach (redo st)

/-- A concrete full stack (50 entries, index at the end), used to exercise
the eviction path of `updateContentWithHistory`. -/
def fullState : HistState :=
  { history := List.replicate 50 "a", historyIndex := 49, content := "a" }

end EditorHistory

/-! ## `markdownToHtml` (`TipTapEditor.jsx`)

The source applies a fixed sequence of global JS regex replacements to
the markdown string.  Each replacement below is modelled by a dedicated
matcher with exactly that regex's semantics; `runScan` mirrors
`String.prototype.replace` with a global regex (leftmost match, the
replacement is not rescanned, on failure the scan advances one
character). -/

/-- Shorthand: characters of a string literal. -/
def sL (s : String) : List Char := s.data

/-- The backtick character. -/
def btick : Char := "`".data.headD ' '

/-- One pass of JS `String.replace` with a global regex: `step` returns
`(replacement, rest-after-match)` when its regex matches at the current
position.  Every matcher consumes at least one character, so fuel
`length + 1` always suffices. -/
def scanRepl (step : List Char → Option (List Char × List Char)) :
    Nat → List Char → List Char
  | 0, cs => cs
  | _ + 1, [] => []
  | fuel + 1, c :: cs =>
      match step (c :: cs) with
      | some (out, rest) => out ++ scanRepl step fuel rest
      | none => c :: scanRepl step fuel cs

/-- Run a global regex replacement over the whole input. -/
def runScan (step : List Char → Option (List Char × List Char))
    (cs : List Char) : List Char :=
  scanRepl step (cs.length + 1) cs

/-- Prepend a character to the first chunk of a chunk list. -/
def consHd (c : Char) : List (List Char) → List (List Char)
  | [] => [[c]]
  | p :: ps => (c :: p) :: ps

/-- Split into lines at `'\n'` (an `m`-flagged `^…$` regex acts per
line). -/
def splitLinesL : List Char → List (List Char)
  | [] => [[]]
  | '\n' :: rest => [] :: splitLinesL rest
  | c :: rest => consHd c (splitLinesL rest)

/-- Rejoin lines with `'\n'`. -/
def joinLinesL (ls : List (List Char)) : List Char :=
  List.intercalate ['\n'] ls

/-- Apply a whole-line replacement to every line (JS `gm` regexes whose
patterns span a full `^…$` line). -/
def mapLines (f : List Char → List Char) (cs : List Char) : List Char :=
  joinLinesL ((splitLinesL cs).map f)

/-- ``/```(.*?)\n([\s\S]*?)\n```/g`` → `<pre><code>$2</code></pre>`:
the language capture is the text before the first newline after the
opening fence, the body is lazily matched up to the earliest `\n`+fence.
-/
def stepCodeBlock (cs : List Char) : Option (List Char × List Char) :=
  if isPrefixL (sL "```") cs then
    let rest := cs.drop 3
    match findSubIdx ['\n'] rest with
    | none => none
    | some i =>
        let afterLang := rest.drop (i + 1)
        match findSubIdx (sL "\n```") afterLang with
        | none => none
        | some j =>
            some (sL "<pre><code>" ++ afterLang.take j ++ sL "</code></pre>",
              afterLang.drop (j + 4))
  else none

/-- Build `<hK>text</hK>`. -/
def headingRepl (k : Nat) (text : List Char) : List Char :=
  sL "<h" ++ (Nat.repr k).data ++ ['>'] ++ text ++ sL "</h" ++
    (Nat.repr k).data ++ ['>']

/-- `/^(#{1,6})\s+(.+)$/gm`: up to six hashes, at least one whitespace,
then a non-empty remainder (when the rest of the line is all whitespace,
the greedy `\s+` backtracks one character so `(.+)` can match it). -/
def headingLine (l : List Char) : List Char :=
  let k := leadCount (fun c => c == '#') l
  if 1 ≤ k ∧ k ≤ 6 then
    let rest := l.drop k
    let w := leadCount isWsChar rest
    if w = 0 then l
    else if k + w < l.length then headingRepl k (rest.drop w)
    else if 2 ≤ w then headingRepl k (rest.drop (w - 1))
    else l
  else l

/-- `/^\d+\.\s*(.*?)$/gm` → `<li>$1</li>`. -/
def orderedLine (l : List Char) : List Char :=
  let d := leadCount (fun c => c.isDigit) l
  if 1 ≤ d ∧ (l.drop d).head? = some '.' then
    let after := l.drop (d + 1)
    let w := leadCount isWsChar after
    sL "<li>" ++ after.drop w ++ sL "</li>"
  else l

/-- `/^[\-\*]\s*\[\s*\]\s*(.*)$/gm` → unchecked task item. -/
def taskUncheckedLine (l : List Char) : List Char :=
  match l with
  | [] => l
  | c :: rest =>
      if c == '-' || c == '*' then
        let r1 := rest.drop (leadCount isWsChar rest)
        match r1 with
        | '[' :: r2 =>
            let r3 := r2.drop (leadCount isWsChar r2)
            match r3 with
            | ']' :: r4 =>
                let text := r4.drop (leadCount isWsChar r4)
                sL "<li data-type=\"taskItem\" data-checked=\"false\">" ++
                  sL "<input type=\"checkbox\"><p>" ++ trimL text ++
                  sL "</p></li>"
            | _ => l
        | _ => l
      else l

/-- `/^[\-\*]\s*\[x\]\s*(.*)$/gim` → checked task item (`x` case
insensitive). -/
def taskCheckedLine (l : List Char) : List Char :=
  match l with
  | [] => l
  | c :: rest =>
      if c == '-' || c == '*' then
        let r1 := rest.drop (leadCount isWsChar rest)
        match r1 with
        | '[' :: x :: ']' :: r4 =>
            if x == 'x' || x == 'X' then
              let text := r4.drop (leadCount isWsChar r4)
              sL "<li data-type=\"taskItem\" data-checked=\"true\">" ++
                sL "<input type=\"checkbox\" checked><p>" ++ trimL text ++
                sL "</p></li>"
            else l
        | _ => l
      else l

/-- The literal opening of a task `<li>` as produced above. -/
def taskLiOpen : List Char := sL "<li data-type=\"taskItem\""

/-- One unit of `/(<li data-type="taskItem"[^>]*>.*?<\/li>)+/g`:
note `.` does not match newlines, so the lazy body stays on one line. -/
def matchTaskUnit (cs : List Char) : Option (List Char × List Char) :=
  if isPrefixL taskLiOpen cs then
    let afterOpen := cs.drop taskLiOpen.length
    let a := leadCount (fun c => c != '>') afterOpen
    if a < afterOpen.length then
      let body := afterOpen.drop (a + 1)
      match findSubIdxNoNl (sL "</li>") body with
      | none => none
      | some j =>
          let total := taskLiOpen.length + a + 1 + j + 5
          some (cs.take total, cs.drop total)
    else none
  else none

/-- Greedily collect one or more consecutive units of a repeated group.
-/
def collectUnits (unit : List Char → Option (List Char × List Char)) :
    Nat → List Char → Option (List Char × List Char)
  | 0, _ => none
  | fuel + 1, cs =>
      match unit cs with
      | none => none
      | some (u, rest) =>
          match collectUnits unit fuel rest with
          | some (us, rest2) => some (u ++ us, rest2)
          | none => some (u, rest)

/-- Wrap a maximal run of task `<li>` units in `<ul>…</ul>` (the
replacement trims the matched text first). -/
def stepTaskWrap (cs : List Char) : Option (List Char × List Char) :=
  match collectUnits matchTaskUnit (cs.length + 1) cs with
  | none => none
  | some (m, rest) => some (sL "<ul>" ++ trimL m ++ sL "</ul>", rest)

/-- The lookahead pattern `\[[\s\]xX\]]` — a `[`, one character from the
class `{whitespace, ], x, X}`, then a `]`. -/
def bulletLookahead (t : List Char) : Bool :=
  match t with
  | '[' :: c :: ']' :: _ => isWsChar c || c == ']' || c == 'x' || c == 'X'
  | _ => false

/-- `/^[\-\*]\s+(?!\[[\s\]xX\]])(.*?)$/gm` → `<li>$1</li>`.  When the
negative lookahead fails after the full greedy whitespace run, `\s+`
backtracks one character (the lookahead then trivially passes on a
whitespace character). -/
def bulletLine (l : List Char) : List Char :=
  match l with
  | [] => l
  | c :: rest =>
      if c == '-' || c == '*' then
        let w := leadCount isWsChar rest
        if w = 0 then l
        else if !bulletLookahead (rest.drop w) then
          sL "<li>" ++ rest.drop w ++ sL "</li>"
        else if 2 ≤ w then
          sL "<li>" ++ rest.drop (w - 1) ++ sL "</li>"
        else l
      else l

/-- One unit of `/(<li(?:\s+[^>]*)?>[^<]*<\/li>\n)+/g` (note the
mandatory trailing newline). -/
def matchPlainLiUnit (cs : List Char) : Option (List Char × List Char) :=
  if isPrefixL (sL "<li") cs then
    let after := cs.drop 3
    let openLen : Option Nat :=
      match after with
      | [] => none
      | c :: _ =>
          if isWsChar c then
            let a := leadCount (fun ch => ch != '>') after
            if a < after.length then some (a + 1) else none
          else if c == '>' then some 1
          else none
    match openLen with
    | none => none
    | some k =>
        let body := after.drop k
        let b := leadCount (fun ch => ch != '<') body
        if isPrefixL (sL "</li>") (body.drop b) then
          match body.drop (b + 5) with
          | '\n' :: _ =>
              let total := 3 + k + b + 5 + 1
              some (cs.take total, cs.drop total)
          | _ => none
        else none
  else none

/-- Wrap a maximal run of plain `<li>…</li>\n` units in `<ul>…</ul>`
(no trimming in this replacement). -/
def stepListWrap (cs : List Char) : Option (List Char × List Char) :=
  match collectUnits matchPlainLiUnit (cs.length + 1) cs with
  | none => none
  | some (m, rest) => some (sL "<ul>" ++ m ++ sL "</ul>", rest)

/-- `/^>\s+(.+)$/gm` → `<blockquote>$1</blockquote>` (same `\s+`/`(.+)`
backtracking as headings). -/
def blockquoteLine (l : List Char) : List Char :=
  match l with
  | '>' :: rest =>
      let w := leadCount isWsChar rest
      if w = 0 then l
      else if w < rest.length then
        sL "<blockquote>" ++ rest.drop w ++ sL "</blockquote>"
      else if 2 ≤ w then
        sL "<blockquote>" ++ rest.drop (w - 1) ++ sL "</blockquote>"
      else l
  | _ => l

/-- A paired-delimiter inline regex such as `/\*\*(.*?)\*\*/g`: lazy
body without newlines, then the closing delimiter. -/
def stepPair (delim pre post : List Char) (cs : List Char) :
    Option (List Char × List Char) :=
  if isPrefixL delim cs then
    let body := cs.drop delim.length
    match findSubIdxNoNl delim body with
    | none => none
    | some j =>
        some (pre ++ body.take j ++ post, body.drop (j + delim.length))
  else none

/-- ``/`([^`]+)`/g`` → `<code>$1</code>` (body non-empty, may span
newlines). -/
def stepCodeSpan (cs : List Char) : Option (List Char × List Char) :=
  match cs with
  | [] => none
  | c :: rest =>
      if c == btick then
        let r := leadCount (fun ch => ch != btick) rest
        if 1 ≤ r ∧ r < rest.length then
          some (sL "<code>" ++ rest.take r ++ sL "</code>",
            rest.drop (r + 1))
        else none
      else none

/-- `/\[([^\]]+)\]\(([^)]+)\)/g` → `<a href="$2">$1</a>`. -/
def stepLink (cs : List Char) : Option (List Char × List Char) :=
  match cs with
  | '[' :: rest =>
      let t := leadCount (fun ch => ch != ']') rest
      if 1 ≤ t ∧ t < rest.length then
        match rest.drop (t + 1) with
        | '(' :: r2 =>
            let u := leadCount (fun ch => ch != ')') r2
            if 1 ≤ u ∧ u < r2.length then
              some (sL "<a href=\"" ++ r2.take u ++ sL "\">" ++
                rest.take t ++ sL "</a>", r2.drop (u + 1))
            else none
        | _ => none
      else none
  | _ => none

/-- `/!\[([^\]]*)\]\(([^)]+)\)/g` → `<img src="$2" alt="$1" />` (the alt
text may be empty). -/
def stepImage (cs : List Char) : Option (List Char × List Char) :=
  match cs with
  | '!' :: '[' :: rest =>
      let t := leadCount (fun ch => ch != ']') rest
      if t < rest.length then
        match rest.drop (t + 1) with
        | '(' :: r2 =>
            let u := leadCount (fun ch => ch != ')') r2
            if 1 ≤ u ∧ u < r2.length then
              some (sL "<img src=\"" ++ r2.take u ++ sL "\" alt=\"" ++
                rest.take t ++ sL "\" />", r2.drop (u + 1))
            else none
        | _ => none
      else none
  | _ => none

/-- Worker for `splitParas`; in `skip` mode extra newlines belonging to
the current separator run are consumed. -/
def splitParasGo : Bool → List Char → List (List Char)
  | _, [] => [[]]
  | true, '\n' :: rest => splitParasGo true rest
  | true, c :: rest => consHd c (splitParasGo false rest)
  | false, '\n' :: '\n' :: rest => [] :: splitParasGo true rest
  | false, c :: rest => consHd c (splitParasGo false rest)

/-- JS `split(/\n\n+/)`: split on each maximal run of two or more
newlines. -/
def splitParas (cs : List Char) : List (List Char) :=
  splitParasGo false cs

/-- The per-part mapping of the paragraph stage: drop empty parts, keep
parts already starting with `<`, wrap the rest in `<p>…</p>`. -/
def paraPart (p : List Char) : List Char :=
  let t := trimL p
  if t.isEmpty then []
  else if isPrefixL ['<'] t then t
  else sL "<p>" ++ t ++ sL "</p>"

/-- The paragraph stage of `markdownToHtml`: split on blank-line runs,
map `paraPart`, and join with `""`. -/
def wrapParas (cs : List Char) : List Char :=
  ((splitParas cs).map paraPart).flatten

/-- `/<li>[\s\-]*<\/li>/g` → `""`. -/
def stepCleanLi (cs : List Char) : Option (List Char × List Char) :=
  if isPrefixL (sL "<li>") cs then
    let body := cs.drop 4
    let r := leadCount (fun c => isWsChar c || c == '-') body
    if isPrefixL (sL "</li>") (body.drop r) then
      some ([], body.drop (r + 5))
    else none
  else none

/-- `/<ul>\s*<\/ul>/g` → `""`. -/
def stepCleanUl (cs : List Char) : Option (List Char × List Char) :=
  if isPrefixL (sL "<ul>") cs then
    let body := cs.drop 4
    let r := leadCount isWsChar body
    if isPrefixL (sL "</ul>") (body.drop r) then
      some ([], body.drop (r + 5))
    else none
  else none

/-- `markdownToHtml` from `TipTapEditor.jsx`: the full replacement
pipeline in source order. -/
def markdownToHtml (markdown : String) : String :=
  if markdown = "" then "<p></p>"
  else
    let h := markdown.data
    let h := runScan stepCodeBlock h
    let h := mapLines headingLine h
    let h := mapLines orderedLine h
    let h := mapLines taskUncheckedLine h
    let h := mapLines taskCheckedLine h
    let h := runScan stepTaskWrap h
    let h := mapLines bulletLine h
    let h := runScan stepListWrap h
    let h := mapLines blockquoteLine h
    let h := runScan
      (stepPair (sL "***") (sL "<strong><em>") (sL "</em></strong>")) h
    let h := runScan (stepPair (sL "**") (sL "<strong>") (sL "</strong>")) h
    let h := runScan (stepPair (sL "__") (sL "<u>") (sL "</u>")) h
    let h := runScan (stepPair (sL "*") (sL "<em>") (sL "</em>")) h
    let h := runScan (stepPair (sL "~~") (sL "<s>") (sL "</s>")) h
    let h := runScan stepCodeSpan h
    let h := runScan stepLink h
    let h := runScan stepImage h
    let h := wrapParas h
    let h := runScan stepCleanLi h
    let h := runScan stepCleanUl h
    String.mk h

/-! ## `htmlToMarkdown` (`TipTapEditor.jsx`)

The source assigns the HTML string to a detached `div`'s `innerHTML` and
recursively walks the resulting DOM.  We model the DOM as a tree of text
and element nodes (tags stored lowercase, attributes in document order)
together with a small innerHTML parser for the well-formed HTML this
component produces. -/

/-- A DOM node: text, or an element with a tag, attributes and child
nodes. -/
inductive HNode where
  | text : String → HNode
  | elem : String → List (String × String) → List HNode → HNode
  deriving Repr

mutual

/-- `Node.textContent`: concatenation of all descendant text. -/
def textContentN : HNode → String
  | .text s => s
  | .elem _ _ children => textContentL children

/-- `textContent` of a node list. -/
def textContentL : List HNode → String
  | [] => ""
  | n :: ns => textContentN n ++ textContentL ns

end

/-- Selector `li[data-type='taskItem']`. -/
def isTaskItemLi : HNode → Bool
  | .elem tag attrs _ =>
      tag == "li" && (attrs.lookup "data-type").getD "" == "taskItem"
  | _ => false

/-- Selector `input[type='checkbox']`. -/
def isCheckboxInput : HNode → Bool
  | .elem tag attrs _ =>
      tag == "input" && (attrs.lookup "type").getD "" == "checkbox"
  | _ => false

mutual

/-- `querySelector`: first matching descendant in document order
(the element itself is not considered). -/
def findDescN (p : HNode → Bool) : HNode → Option HNode
  | .text _ => none
  | .elem _ _ children => findDescL p children

/-- First match of `p` within a node list (preorder). -/
def findDescL (p : HNode → Bool) : List HNode → Option HNode
  | [] => none
  | n :: ns =>
      if p n then some n
      else
        match findDescN p n with
        | some m => some m
        | none => findDescL p ns

end

/-- `checkbox.hasAttribute("checked") || checkbox.checked` — in this
static model the live `checked` property coincides with the attribute. -/
def checkboxChecked : HNode → Bool
  | .elem _ attrs _ => (attrs.lookup "checked").isSome
  | _ => false

mutual

/-- The recursive `walk` of `htmlToMarkdown`, one case per tag of the
source's `switch`. -/
def walkN : HNode → String
  | .text s => s
  | .elem tag attrs children =>
      let inner := walkL children
      if tag == "h1" then "# " ++ trimS inner ++ "\n\n"
      else if tag == "h2" then "## " ++ trimS inner ++ "\n\n"
      else if tag == "h3" then "### " ++ trimS inner ++ "\n\n"
      else if tag == "h4" then "#### " ++ trimS inner ++ "\n\n"
      else if tag == "h5" then "##### " ++ trimS inner ++ "\n\n"
      else if tag == "h6" then "###### " ++ trimS inner ++ "\n\n"
      else if tag == "strong" || tag == "b" then "**" ++ inner ++ "**"
      else if tag == "em" || tag == "i" then "*" ++ inner ++ "*"
      else if tag == "u" then "__" ++ inner ++ "__"
      else if tag == "s" || tag == "del" || tag == "strike" then
        "~~" ++ inner ++ "~~"
      else if tag == "p" then inner ++ "\n\n"
      else if tag == "br" then "\n"
      else if tag == "ul" || tag == "ol" then
        -- the source checks for task items but both branches return the
        -- same string
        if (findDescL isTaskItemLi children).isSome then inner ++ "\n"
        else inner ++ "\n"
      else if tag == "li" then
        match findDescL isCheckboxInput children with
        | some cb =>
            let textContent := trimS (walkLiChildren children)
            (if checkboxChecked cb then "- [x] " else "- [ ] ") ++
              textContent ++ "\n"
        | none =>
            let trimmedContent := trimS inner
            if trimmedContent == "" then ""
            else "- " ++ trimmedContent ++ "\n"
      else if tag == "input" then ""
      else if tag == "code" then "`" ++ inner ++ "`"
      else if tag == "pre" then
        "```\n" ++ textContentL children ++ "\n```\n\n"
      else if tag == "blockquote" then "> " ++ trimS inner ++ "\n\n"
      else if tag == "a" then
        "[" ++ inner ++ "](" ++ (attrs.lookup "href").getD "null" ++ ")"
      else if tag == "img" then
        "![" ++ (attrs.lookup "alt").getD "" ++ "](" ++
          (attrs.lookup "src").getD "" ++ ")"
      else inner

/-- `walk` over a child list, concatenated. -/
def walkL : List HNode → String
  | [] => ""
  | n :: ns => walkN n ++ walkL ns

/-- The task-item branch's text rebuild: walk the `li`'s children but
map `INPUT` elements to `""`. -/
def walkLiChildren : List HNode → String
  | [] => ""
  | n :: ns =>
      let piece :=
        match n with
        | HNode.elem tag _ _ => if tag == "input" then "" else walkN n
        | HNode.text _ => walkN n
      piece ++ walkLiChildren ns

end

/-- Tags the browser treats as void (no children, no closing tag); the
subset relevant to this component's HTML. -/
def voidTags : List String := ["input", "img", "br", "hr"]

/-- Characters allowed in a tag name. -/
def isTagNameChar (c : Char) : Bool := c.isAlpha || c.isDigit

/-- Parse the attribute list of an open tag up to and including the
closing `>`; returns `(attributes, selfClosing, rest)`. -/
def parseAttrs : Nat → List Char → List (String × String) × Bool × List Char
  | 0, cs => ([], false, cs)
  | fuel + 1, cs =>
      let cs1 := cs.dropWhile (fun c => isWsChar c)
      match cs1 with
      | [] => ([], false, [])
      | '>' :: rest => ([], false, rest)
      | '/' :: '>' :: rest => ([], true, rest)
      | _ =>
          let name := cs1.takeWhile
            (fun c => !isWsChar c && c != '=' && c != '>' && c != '/')
          if name.isEmpty then
            -- stray character; skip it so the parse makes progress
            parseAttrs fuel (cs1.drop 1)
          else
            match cs1.drop name.length with
            | '=' :: '"' :: r2 =>
                let v := r2.takeWhile (fun c => c != '"')
                let (as, sc, rest) := parseAttrs fuel (r2.drop (v.length + 1))
                ((String.mk name, String.mk v) :: as, sc, rest)
            | r2 =>
                let (as, sc, rest) := parseAttrs fuel r2
                ((String.mk name, "") :: as, sc, rest)

/-- Prepend a literal character to a node list, merging into a leading
text node. -/
def consTextChar (ch : Char) : List HNode → List HNode
  | HNode.text s :: ns => HNode.text (String.mk (ch :: s.data)) :: ns
  | ns => HNode.text (String.mk [ch]) :: ns

/-- Skip a closing tag `</tag>`. -/
def skipCloseTag (cs : List Char) : List Char :=
  match cs with
  | '<' :: '/' :: rest => (rest.dropWhile (fun c => c != '>')).drop 1
  | _ => cs

/-- Parse a sibling list of nodes; stops at a closing tag or end of
input (browser `innerHTML` parsing, restricted to the well-formed HTML
this component builds). -/
def parseNodes : Nat → List Char → List HNode × List Char
  | 0, cs => ([], cs)
  | fuel + 1, cs =>
      match cs with
      | [] => ([], [])
      | '<' :: '/' :: _ => ([], cs)
      | '<' :: c :: rest =>
          if c.isAlpha then
            let name := (c :: rest).takeWhile isTagNameChar
            let afterName := (c :: rest).drop name.length
            let (attrs, selfClose, afterOpen) := parseAttrs fuel afterName
            let tag := String.mk name
            if selfClose || voidTags.contains tag then
              let (siblings, rest2) := parseNodes fuel afterOpen
              (HNode.elem tag attrs [] :: siblings, rest2)
            else
              let (children, afterChildren) := parseNodes fuel afterOpen
              let (siblings, rest2) :=
                parseNodes fuel (skipCloseTag afterChildren)
              (HNode.elem tag attrs children :: siblings, rest2)
          else
            let (siblings, rest2) := parseNodes fuel (c :: rest)
            (consTextChar '<' siblings, rest2)
      | c :: rest =>
          let (siblings, rest2) := parseNodes fuel rest
          (consTextChar c siblings, rest2)

/-- `div.innerHTML = html` on a detached div: the div's resulting child
list. -/
def parseHTML (s : String) : List HNode :=
  (parseNodes (2 * s.length + 4) s.data).1

/-- Collapse every run of three or more newlines to exactly two
(`/\n{3,}/g` → `"\n\n"`). -/
def collapseNl3Go : Bool → List Char → List Char
  | _, [] => []
  | true, '\n' :: rest => collapseNl3Go true rest
  | true, c :: rest => c :: collapseNl3Go false rest
  | false, '\n' :: '\n' :: '\n' :: rest =>
      '\n' :: '\n' :: collapseNl3Go true rest
  | false, c :: rest => c :: collapseNl3Go false rest

/-- `htmlToMarkdown` from `TipTapEditor.jsx`: parse the HTML, walk it
(the wrapping `div` returns the concatenation of its children), then
`.trim()` and collapse newline runs. -/
def htmlToMarkdown (html : String) : String :=
  if html = "" then ""
  else String.mk (collapseNl3Go false (trimL (walkL (parseHTML html)).data))

/-- Decode to the editor document form and encode back
(`htmlToMarkdown ∘ markdownToHtml`). -/
def markdownRoundTrip (s : String) : String :=
  htmlToMarkdown (markdownToHtml s)

/-! ## `onUpdate` suppression (`TipTapEditor.jsx`) -/

/-- The substring both sides are tested for. -/
def taskItemMarker : String := "data-type=\"taskItem\""

/-- The `onUpdate` callback of `TipTapEditor.jsx`: given the editor's
current HTML and the last accepted markdown (`lastMarkdownRef`), it
returns early — `none`, no `onChange` — when the current HTML contains a
task-item marker and the last markdown is nonempty and re-decodes to
HTML containing a task-item marker; otherwise it propagates
`some (htmlToMarkdown currentHTML)` to `onChange`. -/
def onUpdateResult (currentHTML lastMarkdown : String) : Option String :=
  if containsSubS taskItemMarker currentHTML = true ∧ lastMarkdown ≠ "" ∧
      containsSubS taskItemMarker (markdownToHtml lastMarkdown) = true then
    none
  else some (htmlToMarkdown currentHTML)

/-- A native-document HTML snapshot holding a task list AND freshly
typed text (`hello`) that is not yet in the accepted markdown. -/
def typedTaskHTML : String :=
  "<ul><li data-type=\"taskItem\" data-checked=\"false\">" ++
  "<input type=\"checkbox\"><p>buy milk</p></li></ul><p>hello</p>"

/-- The native-document HTML snapshot right after toggling the checkbox
of `- [ ] buy milk` to checked. -/
def checkedTaskHTML : String :=
  "<ul><li data-type=\"taskItem\" data-checked=\"true\">" ++
  "<input type=\"checkbox\" checked><p>buy milk</p></li></ul>"

/-! ## Spec-side block model (spec §3/§4.2/§4.3)

For the refinement claim about checkbox-toggle suppression, the spec's
own comparison — "the only difference between their decoded block
sequences is task-item `checked` booleans" — is formalised by a second,
clearly spec-named block decoder following the words of spec §4.2, to be
compared against the behavior of the source's `onUpdate`. -/

/-- spec §3 `Block`, with inline runs kept as raw strings (sufficient
for sequence comparison). -/
inductive SpecBlock where
  | paragraph : String → SpecBlock
  | heading : Nat → String → SpecBlock
  | bulletItem : String → SpecBlock
  | orderedItem : Nat → String → SpecBlock
  | taskItem : Bool → String → SpecBlock
  | blockquote : String → SpecBlock
  | codeBlock : String → String → SpecBlock
  | image : String → String → SpecBlock
  | blank : SpecBlock
  deriving DecidableEq, Repr

/-- spec §4.2: an image-only line `![alt](src)`. -/
def specImageLine : String → Option (String × String)
  | l =>
      match l.data with
      | '!' :: '[' :: rest =>
          match findSubIdx (sL "](") rest with
          | none => none
          | some i =>
              let srcPart := rest.drop (i + 2)
              match srcPart.getLast? with
              | some ')' =>
                  if srcPart.length ≥ 2 then
                    some (String.mk (rest.take i),
                      String.mk srcPart.dropLast)
                  else none
              | _ => none
      | _ => none

/-- spec §4.2: classify one line by the fixed precedence order (heading,
task item before plain bullet, bullet, ordered, blockquote, image-only,
blank, else paragraph). -/
def specClassifyLine (l : String) : SpecBlock :=
  let k := leadCount (fun c => c == '#') l.data
  if 1 ≤ k ∧ k ≤ 6 ∧ (l.data.drop k).head? = some ' ' then
    .heading k (String.mk (l.data.drop (k + 1)))
  else if isPrefixS "- [ ] " l then .taskItem false (l.drop 6)
  else if isPrefixS "- [x] " l || isPrefixS "- [X] " l then
    .taskItem true (l.drop 6)
  else if isPrefixS "- " l then .bulletItem (l.drop 2)
  else
    let d := leadCount (fun c => c.isDigit) l.data
    if 1 ≤ d ∧ isPrefixL (sL ". ") (l.data.drop d) then
      .orderedItem (digitsToNat (l.data.take d))
        (String.mk (l.data.drop (d + 2)))
    else if isPrefixS "> " l then .blockquote (l.drop 2)
    else
      match specImageLine l with
      | some (alt, src) => .image alt src
      | none => if trimS l = "" then .blank else .paragraph l

mutual

/-- spec §4.2 block decode over the line list; a fence opener consumes
lines verbatim until a closing fence or end of input. -/
def specGoBlocks : List String → List SpecBlock
  | [] => []
  | l :: ls =>
      if isPrefixS "```" l then specGoFence (l.drop 3) [] ls
      else specClassifyLine l :: specGoBlocks ls

/-- Inside a fenced code block: accumulate raw lines until the closing
fence (or end of input — not an error, per spec §4.2). -/
def specGoFence (lang : String) (acc : List String) :
    List String → List SpecBlock
  | [] => [.codeBlock lang (String.intercalate "\n" acc.reverse)]
  | l :: ls =>
      if isPrefixS "```" l then
        .codeBlock lang (String.intercalate "\n" acc.reverse) ::
          specGoBlocks ls
      else specGoFence lang (l :: acc) ls

end

/-- spec §4.2 `decode`: split on line boundaries and classify. -/
def specDecodeBlocks (s : String) : List SpecBlock :=
  specGoBlocks ((splitLinesL s.data).map String.mk)

/-- Forget task-item `checked` state. -/
def normTask : SpecBlock → SpecBlock
  | .taskItem _ t => .taskItem false t
  | b => b

/-- spec §4.3's suppression comparison: the decoded block sequences of
the two markdown strings agree except possibly in task-item `checked`
booleans. -/
def specOnlyCheckedDiff (a b : String) : Bool :=
  decide (((specDecodeBlocks a).map normTask) =
    ((specDecodeBlocks b).map normTask))

/-! ## `insertText` (`Editor.jsx`, plain-textarea path)

The selection-aware wrap/unwrap logic operating on the raw markdown
string and the `(selectionStart, selectionEnd)` pair. -/

/-- JS `String.prototype.substring(a, b)` (with `Nat` subtraction
mirroring JS's clamping of negative indices to 0). -/
def jsSubstring (s : String) (a b : Nat) : String :=
  String.mk ((s.data.drop a).take (b - a))

/-- JS `String.prototype.substring(a)` — from `a` to the end. -/
def jsSubstringFrom (s : String) (a : Nat) : String :=
  String.mk (s.data.drop a)

/-- `insertText` from `Editor.jsx` (textarea branch): returns the new
content and the new `(selectionStart, selectionEnd)`.  The `*` vs `**`
collision check inspects one further character of context on each side,
and one more to recognise `***`. -/
def insertTextTextarea (content : String) (selStart selEnd : Nat)
    (marker closeMarker : String) : String × Nat × Nat :=
  let selectedText := jsSubstring content selStart selEnd
  let len := marker.length
  let closeLen := closeMarker.length
  let beforeTxt := jsSubstring content (selStart - len) selStart
  let afterTxt := jsSubstring content selEnd (selEnd + closeLen)
  let isWrapped := beforeTxt == marker && afterTxt == closeMarker
  let shouldUnwrap :=
    if marker == "*" && isWrapped then
      let charPreBefore := jsSubstring content (selStart - 2) (selStart - 1)
      let charPostAfter := jsSubstring content (selEnd + 1) (selEnd + 2)
      if charPreBefore == "*" && charPostAfter == "*" then
        let charPrePreBefore :=
          jsSubstring content (selStart - 3) (selStart - 2)
        let charPostPostAfter :=
          jsSubstring content (selEnd + 2) (selEnd + 3)
        if charPrePreBefore == "*" && charPostPostAfter == "*" then
          isWrapped
        else false
      else isWrapped
    else isWrapped
  if shouldUnwrap then
    (jsSubstring content 0 (selStart - len) ++ selectedText ++
        jsSubstringFrom content (selEnd + closeLen),
      selStart - len, selEnd - len)
  else
    (jsSubstring content 0 selStart ++ marker ++ selectedText ++
        closeMarker ++ jsSubstringFrom content selEnd,
      selStart + len, selEnd + len)

/-! ## The imperative command handle (`TipTapEditor.jsx`,
`useImperativeHandle`)

Every command first checks `if (!editor) return;`.  The TipTap library
calls made in the non-null branch are external to this repository and
are abstracted as an operations record over an opaque editor state
`E`. -/

/-- The TipTap editor operations used by the handle commands
(`editor.chain().…`, selection state, `getHTML`). -/
structure TipTapAPI (E : Type) where
  toggleMark : E → String → E
  selStart : E → Nat
  selEnd : E → Nat
  textBetween : E → Nat → Nat → String
  deleteRangeInsert : E → Nat → Nat → String → E
  insertContent : E → String → E
  lineStart : E → Nat
  setSelection : E → Nat → E
  isActiveHeading : E → Nat → Bool
  setParagraph : E → E
  setHeadingLevel : E → Nat → E
  toggleBulletList : E → E
  toggleOrderedList : E → E
  toggleTaskList : E → E
  setContent : E → String → E
  getHTML : E → String

namespace Handle

/-- The `markMap` of `insertText`. -/
def markMap (beforeM : String) : Option String :=
  if beforeM = "**" then some "bold"
  else if beforeM = "*" then some "italic"
  else if beforeM = "__" then some "underline"
  else if beforeM = "~~" then some "strikethrough"
  else if beforeM = "`" then some "code"
  else none

variable {E : Type}

/-- Handle command `insertText(before, after)`. -/
def insertText (api : TipTapAPI E) (editor : Option E)
    (beforeM afterM : String) : Option E :=
  match editor with
  | none => none
  | some e =>
      match markMap beforeM with
      | some m => some (api.toggleMark e m)
      | none =>
          let p1 := api.selStart e
          let p2 := api.selEnd e
          let sel := api.textBetween e p1 p2
          let newText :=
            if sel.startsWith beforeM ∧ sel.endsWith afterM ∧
                beforeM.length + afterM.length < sel.length then
              (sel.drop beforeM.length).dropRight afterM.length
            else beforeM ++ sel ++ afterM
          if sel.length > 0 then
            some (api.deleteRangeInsert e p1 p2 newText)
          else some (api.insertContent e newText)

/-- Handle command `insertBlock(prefix)`. -/
def insertBlock (api : TipTapAPI E) (editor : Option E)
    (pfx : String) : Option E :=
  match editor with
  | none => none
  | some e => some (api.insertContent (api.setSelection e (api.lineStart e))
      pfx)

/-- Handle command `setHeading(level)`. -/
def setHeading (api : TipTapAPI E) (editor : Option E)
    (level : Nat) : Option E :=
  match editor with
  | none => none
  | some e =>
      if api.isActiveHeading e level then some (api.setParagraph e)
      else some (api.setHeadingLevel e level)

/-- Handle command `toggleBulletList()`. -/
def toggleBulletList (api : TipTapAPI E) (editor : Option E) : Option E :=
  match editor with
  | none => none
  | some e => some (api.toggleBulletList e)

/-- Handle command `toggleOrderedList()`. -/
def toggleOrderedList (api : TipTapAPI E) (editor : Option E) : Option E :=
  match editor with
  | none => none
  | some e => some (api.toggleOrderedList e)

/-- Handle command `toggleTaskList()`. -/
def toggleTaskList (api : TipTapAPI E) (editor : Option E) : Option E :=
  match editor with
  | none => none
  | some e => some (api.toggleTaskList e)

/-- Handle command `insertMarkdown(markdown)`. -/
def insertMarkdown (api : TipTapAPI E) (editor : Option E)
    (markdown : String) : Option E :=
  match editor with
  | none => none
  | some e => some (api.insertContent e (markdownToHtml markdown))

/-- Handle command `setContent(markdown)`. -/
def setContent (api : TipTapAPI E) (editor : Option E)
    (markdown : String) : Option E :=
  match editor with
  | none => none
  | some e => some (api.setContent e (markdownToHtml markdown))

/-- Handle command `getMarkdown()` — returns `""` with no binding. -/
def getMarkdown (api : TipTapAPI E) (editor : Option E) : String :=
  match editor with
  | none => ""
  | some e => htmlToMarkdown (api.getHTML e)

end Handle

/-! ## Supporting lemmas and claim theorems -/

namespace EditorHistory

theorem getD_last_append (l : List String) (x : String) :
    (l ++ [x]).getD ((l ++ [x]).length - 1) "" = x := by
  have h1 : (l ++ [x]).length - 1 = l.length := by simp
  rw [h1, List.getD_append_right l [x] "" l.length (le_refl l.length)]
  simp [List.getD]

/-- On every reachable state the visible content is the history entry at
the current index. -/
theorem content_eq_entry : ∀ {st : HistState}, Reach st →
    st.content = st.history.getD st.historyIndex "" := by
  intro st h
  induction h with
  | start c0 => rfl
  | step_record X hR ih =>
      rename_i st'
      by_cases hx : X = st'.content
      · rw [updateContentWithHistory, if_pos hx]; exact ih
      · rw [updateContentWithHistory, if_neg hx]
        by_cases hlen :
            (st'.history.take (st'.historyIndex + 1) ++ [X]).length > 50
        · rw [if_pos hlen]
          cases ht : st'.history.take (st'.historyIndex + 1) with
          | nil => rw [ht] at hlen; simp at hlen
          | cons a t' =>
              exact (getD_last_append t' X).symm
        · rw [if_neg hlen]
          exact (getD_last_append (st'.history.take (st'.historyIndex + 1))
            X).symm
  | step_undo hR ih =>
      rename_i st'
      by_cases hpos : st'.historyIndex > 0
      · rw [undo, if_pos hpos]
      · rw [undo, if_neg hpos]; exact ih
  | step_redo hR ih =>
      rename_i st'
      by_cases hlt : st'.historyIndex < st'.history.length - 1
      · rw [redo, if_pos hlt]
      · rw [redo, if_neg hlt]; exact ih

end EditorHistory

open EditorHistory in
/-- C4 (counterexample): starting from a freshly-opened note with initial
content `""`, the sequence `record "A"; record "B"; record "C"; undo;
undo; record "D"` does NOT leave the stack `["A", "D"]` at index 1 as the
claim states: the stack also retains the initial snapshot, giving
`["", "A", "D"]` at index 2. -/
theorem c4_counterexample :
    ¬((updateContentWithHistory
        (undo (undo (updateContentWithHistory (updateContentWithHistory
          (updateContentWithHistory (initState "") "A") "B") "C")))
        "D").history = ["A", "D"] ∧
      (updateContentWithHistory
        (undo (undo (updateContentWithHistory (updateContentWithHistory
          (updateContentWithHistory (initState "") "A") "B") "C")))
        "D").historyIndex = 1) := by
  decide

open EditorHistory in
/-- C4 (amended): the history stack is initialised with the opened note's
content as its first entry, so `record A; record B; record C; undo; undo;
record D` from initial content `c0` (with each successive recorded value
distinct from the value visible when it is recorded) leaves the stack
`[c0, A, D]` at index 2, with content `D`; the former `B` and `C` are
gone. -/
theorem c4_amended_linear_history (c0 A B C D : String)
    (hA : A ≠ c0) (hB : B ≠ A) (hC : C ≠ B) (hD : D ≠ A) :
    updateContentWithHistory
      (undo (undo (updateContentWithHistory (updateContentWithHistory
        (updateContentWithHistory (initState c0) A) B) C)))
      D = { history := [c0, A, D], historyIndex := 2, content := D } := by
  have e1 : updateContentWithHistory (initState c0) A =
      { history := [c0, A], historyIndex := 1, content := A } := by
    simp [updateContentWithHistory, initState, hA]
  have e2 : updateContentWithHistory
      ({ history := [c0, A], historyIndex := 1, content := A } : HistState)
      B = { history := [c0, A, B], historyIndex := 2, content := B } := by
    simp [updateContentWithHistory, hB]
  have e3 : updateContentWithHistory
      ({ history := [c0, A, B], historyIndex := 2, content := B } :
        HistState) C =
      { history := [c0, A, B, C], historyIndex := 3, content := C } := by
    simp [updateContentWithHistory, hC]
  have e4 : undo
      ({ history := [c0, A, B, C], historyIndex := 3, content := C } :
        HistState) =
      { history := [c0, A, B, C], historyIndex := 2, content := B } := by
    simp [undo, List.getD]
  have e5 : undo
      ({ history := [c0, A, B, C], historyIndex := 2, content := B } :
        HistState) =
      { history := [c0, A, B, C], historyIndex := 1, content := A } := by
    simp [undo, List.getD]
  have e6 : updateContentWithHistory
      ({ history := [c0, A, B, C], historyIndex := 1, content := A } :
        HistState) D =
      { history := [c0, A, D], historyIndex := 2, content := D } := by
    simp [updateContentWithHistory, hD]
  rw [e1, e2, e3, e4, e5, e6]

open EditorHistory in
/-- C5: recording the same markdown twice in succession leaves the state
exactly as after a single record, and on any reachable state recording
the entry at the current index is a no-op. -/
theorem c5_idempotent_record :
    (∀ (st : HistState) (X : String),
      updateContentWithHistory (updateContentWithHistory st X) X =
        updateContentWithHistory st X) ∧
    (∀ st : HistState, Reach st →
      updateContentWithHistory st (st.history.getD st.historyIndex "") =
        st) := by
  constructor
  · intro st X
    by_cases h : X = st.content
    · have hr : updateContentWithHistory st X = st := by
        unfold updateContentWithHistory; rw [if_pos h]
      rw [hr]; exact hr
    · have hc : (updateContentWithHistory st X).content = X := by
        unfold updateContentWithHistory; rw [if_neg h]; split <;> rfl
      set r := updateContentWithHistory st X with hrdef
      have : updateContentWithHistory r X = r := by
        unfold updateContentWithHistory; rw [if_pos hc.symm]
      rw [this]
  · intro st h
    have hc := content_eq_entry h
    unfold updateContentWithHistory
    rw [if_pos hc.symm]

open EditorHistory in
/-- C5 (witness): on the freshly-opened state for content `"a"`,
re-recording the entry at the current index changes nothing. -/
theorem c5_witness :
    updateContentWithHistory (initState "a")
      ((initState "a").history.getD (initState "a").historyIndex "") =
      initState "a" :=
  c5_idempotent_record.2 (initState "a") (Reach.start "a")

open EditorHistory in
/-- C6: on every reachable state the history stack holds at most 50
entries and the index points at a valid entry; and when a record occurs
with the stack full (50 entries) and the index at the end, the oldest
entry is evicted and the index stays at 49 (one less than it would have
advanced to). -/
theorem c6_bounded_valid :
    (∀ st : HistState, Reach st →
      st.history.length ≤ 50 ∧ 1 ≤ st.history.length ∧
        st.historyIndex < st.history.length) ∧
    (∀ (st : HistState) (X : String), st.history.length = 50 →
      st.historyIndex = 49 → X ≠ st.content →
      (updateContentWithHistory st X).history = st.history.tail ++ [X] ∧
        (updateContentWithHistory st X).historyIndex = 49) := by
  constructor
  · intro st h
    induction h with
    | start c0 => simp [initState]
    | step_record X hR ih =>
        rename_i st'
        by_cases hx : X = st'.content
        · rw [updateContentWithHistory, if_pos hx]; exact ih
        · have htk : (st'.history.take (st'.historyIndex + 1)).length ≤
              st'.history.length := by
            rw [List.length_take]; exact min_le_right _ _
          rw [updateContentWithHistory, if_neg hx]
          by_cases hlen :
              (st'.history.take (st'.historyIndex + 1) ++ [X]).length > 50
          · rw [if_pos hlen]
            simp only [List.length_tail, List.length_append,
              List.length_singleton] at *
            omega
          · rw [if_neg hlen]
            simp only [List.length_append, List.length_singleton] at *
            omega
    | step_undo hR ih =>
        rename_i st'
        by_cases hpos : st'.historyIndex > 0
        · rw [undo, if_pos hpos]
          simp only at *
          omega
        · rw [undo, if_neg hpos]; exact ih
    | step_redo hR ih =>
        rename_i st'
        by_cases hlt : st'.historyIndex < st'.history.length - 1
        · rw [redo, if_pos hlt]
          simp only at *
          omega
        · rw [redo, if_neg hlt]; exact ih
  · intro st X hlen hidx hx
    have ht : st.history.take (st.historyIndex + 1) = st.history := by
      have h1 : st.historyIndex + 1 = st.history.length := by omega
      rw [h1, List.take_length]
    rw [updateContentWithHistory, if_neg hx, ht]
    have h51 : (st.history ++ [X]).length > 50 := by
      simp [hlen]
    rw [if_pos h51]
    cases hh : st.history with
    | nil => rw [hh] at hlen; simp at hlen
    | cons a t =>
        constructor
        · simp
        · rw [hh] at hlen
          simp only [List.cons_append, List.tail_cons, List.length_append,
            List.length_singleton]
          simp at hlen
          omega

open EditorHistory in
/-- C6 (witness): the invariant holds on a freshly-opened note, and
recording onto a concrete full 50-entry stack evicts the oldest entry and
leaves the index at 49. -/
theorem c6_witness :
    ((initState "x").history.length ≤ 50 ∧
      1 ≤ (initState "x").history.length ∧
      (initState "x").historyIndex < (initState "x").history.length) ∧
    ((updateContentWithHistory fullState "b").history =
        fullState.history.tail ++ ["b"] ∧
      (updateContentWithHistory fullState "b").historyIndex = 49) :=
  ⟨c6_bounded_valid.1 (initState "x") (Reach.start "x"),
   c6_bounded_valid.2 fullState "b" (by decide) (by decide) (by decide)⟩

open EditorHistory in
/-- C10: `undo` and `redo` never modify the contents of the history
stack; only the index and the visible content change. -/
theorem c10_undo_redo_frame :
    ∀ st : HistState,
      (undo st).history = st.history ∧ (redo st).history = st.history := by
  intro st
  constructor
  · unfold undo; split <;> rfl
  · unfold redo; split <;> rfl

set_option maxRecDepth 40000 in
/-- C1 (counterexample): decoding the markdown
`"# Title\n\nSome **bold** text.\n"` with `markdownToHtml` and encoding
back with `htmlToMarkdown` is NOT byte-identical to the input (the final
`.trim()` of `htmlToMarkdown` removes the trailing newline), so the
round-trip law `encode(decode(s)) = s` fails at this well-formed
input. -/
theorem c1_counterexample :
    markdownRoundTrip "# Title\n\nSome **bold** text.\n" ≠
      "# Title\n\nSome **bold** text.\n" := by
  decide

set_option maxRecDepth 40000 in
/-- C1 (amended): the round trip returns the input with surrounding
whitespace trimmed — for this input, exactly the input minus its
trailing newline. -/
theorem c1_amended_roundtrip :
    markdownRoundTrip "# Title\n\nSome **bold** text.\n" =
      "# Title\n\nSome **bold** text." := by
  decide

set_option maxRecDepth 40000 in
/-- C2 (counterexample): the adapter's suppression is NOT exact.  With
accepted markdown `"- [ ] buy milk"` and a native document that contains
the task list plus newly typed text `hello`, `onUpdate` suppresses
propagation (returns early without calling `onChange`) even though the
difference between the decoded block sequences is additional paragraph
content, not a task-item `checked` boolean. -/
theorem c2_counterexample :
    onUpdateResult typedTaskHTML "- [ ] buy milk" = none ∧
    htmlToMarkdown typedTaskHTML = "- [ ] buy milk\n\nhello" ∧
    specOnlyCheckedDiff "- [ ] buy milk" (htmlToMarkdown typedTaskHTML) =
      false := by
  refine ⟨?_, ?_, ?_⟩ <;> decide

set_option maxRecDepth 40000 in
/-- C2 (amended): `onUpdate` suppresses propagation exactly when the
current editor HTML contains a task-item marker and the previously
accepted markdown is nonempty and re-decodes to HTML containing a
task-item marker — regardless of what else changed.  In particular a
pure checkbox toggle on `- [ ] buy milk` is suppressed (no rebuild), but
so is text typed into a document that also contains a task list. -/
theorem c2_amended_suppression :
    (∀ currentHTML lastMarkdown : String,
      onUpdateResult currentHTML lastMarkdown = none ↔
        (containsSubS taskItemMarker currentHTML = true ∧
          lastMarkdown ≠ "" ∧
          containsSubS taskItemMarker (markdownToHtml lastMarkdown) =
            true)) ∧
    onUpdateResult checkedTaskHTML "- [ ] buy milk" = none ∧
    onUpdateResult typedTaskHTML "- [ ] buy milk" = none := by
  refine ⟨?_, ?_, ?_⟩
  · intro c l
    by_cases h : containsSubS taskItemMarker c = true ∧ l ≠ "" ∧
        containsSubS taskItemMarker (markdownToHtml l) = true
    · simp [onUpdateResult, h]
    · simp [onUpdateResult, h]
  · decide
  · decide

set_option maxRecDepth 40000 in
/-- C3 (counterexample): decoding
`"![x](data:image/png;base64,AAA(BBB)CCC)"` does not produce any image
element, let alone one whose `src` is the full data URI: the output
contains neither `<img` nor the untruncated URI. -/
theorem c3_counterexample :
    containsSubS "<img"
      (markdownToHtml "![x](data:image/png;base64,AAA(BBB)CCC)") =
        false ∧
    containsSubS "data:image/png;base64,AAA(BBB)CCC"
      (markdownToHtml "![x](data:image/png;base64,AAA(BBB)CCC)") =
        false := by
  refine ⟨?_, ?_⟩ <;> decide

set_option maxRecDepth 40000 in
/-- C3 (amended): the link rule runs before the image rule and its
`[^)]+` source match stops at the FIRST closing parenthesis, so the
input decodes to a literal `!` followed by a link whose `href` is
truncated at the embedded `)`, with the remainder `CCC)` left as literal
text. -/
theorem c3_amended_image_truncation :
    markdownToHtml "![x](data:image/png;base64,AAA(BBB)CCC)" =
      "<p>!<a href=\"data:image/png;base64,AAA(BBB\">x</a>CCC)</p>" := by
  decide

set_option maxRecDepth 40000 in
/-- C7: with content `**bold and *italic* text**` and the selection
exactly over `italic` (offsets 12–18), the italic toggle removes only
the inner single-asterisk pair, yielding `**bold and italic text**`
with the selection moved to offsets 11–17; the surrounding `**` bold
delimiters are untouched. -/
theorem c7_wrap_unwrap_disambiguation :
    insertTextTextarea "**bold and *italic* text**" 12 18 "*" "*" =
      ("**bold and italic text**", 11, 17) := by
  decide

set_option maxRecDepth 40000 in
/-- C8 (counterexample): a line that matches no block form does NOT
always degrade to a `Paragraph`: a part whose trimmed text begins with
`<` (here the raw input `"<hello"`) is passed through verbatim by the
paragraph stage, with no `<p>` wrapper at all. -/
theorem c8_counterexample :
    markdownToHtml "<hello" = "<hello" ∧
    containsSubS "<p>" (markdownToHtml "<hello") = false := by
  refine ⟨?_, ?_⟩ <;> decide

/-- C8 (amended): the decode is a total function.  In the paragraph
stage, every blank-line-separated part with nonempty trimmed text that
does not begin with `<` appears in the output wrapped as
`<p>…</p>` around its trimmed text, and every such part that does begin
with `<` appears verbatim (trimmed, unwrapped). -/
theorem c8_amended_paragraph_degrade :
    (∀ (cs p : List Char), p ∈ splitParas cs → trimL p ≠ [] →
      ¬ isPrefixL ['<'] (trimL p) = true →
      (sL "<p>" ++ trimL p ++ sL "</p>") <:+: wrapParas cs) ∧
    (∀ (cs p : List Char), p ∈ splitParas cs → trimL p ≠ [] →
      isPrefixL ['<'] (trimL p) = true →
      trimL p <:+: wrapParas cs) := by
  constructor
  · intro cs p hmem hne hlt
    have h1 : paraPart p ∈ (splitParas cs).map paraPart :=
      List.mem_map_of_mem paraPart hmem
    have h2 := List.infix_of_mem_flatten h1
    have hne2 : ¬(trimL p).isEmpty = true := by
      simpa [List.isEmpty_iff] using hne
    have h3 : paraPart p = sL "<p>" ++ trimL p ++ sL "</p>" := by
      simp only [paraPart]
      rw [if_neg hne2, if_neg hlt]
    rwa [h3] at h2
  · intro cs p hmem hne hlt
    have h1 : paraPart p ∈ (splitParas cs).map paraPart :=
      List.mem_map_of_mem paraPart hmem
    have h2 := List.infix_of_mem_flatten h1
    have hne2 : ¬(trimL p).isEmpty = true := by
      simpa [List.isEmpty_iff] using hne
    have h3 : paraPart p = trimL p := by
      simp only [paraPart]
      rw [if_neg hne2, if_pos hlt]
    rwa [h3] at h2

set_option maxRecDepth 40000 in
/-- C8 (witness): the amended paragraph-stage property at the concrete
parts `"hi"` (wrapped) and `"<b>hi"` (passed through). -/
theorem c8_witness :
    (sL "<p>" ++ trimL (sL "hi") ++ sL "</p>") <:+: wrapParas (sL "hi") ∧
    trimL (sL "<b>hi") <:+: wrapParas (sL "<b>hi") :=
  ⟨c8_amended_paragraph_degrade.1 (sL "hi") (sL "hi") (by decide)
      (by decide) (by decide),
    c8_amended_paragraph_degrade.2 (sL "<b>hi") (sL "<b>hi") (by decide)
      (by decide) (by decide)⟩

/-- C9: with no active document binding (`editor` is `null`), every
mutation command of the imperative handle is a no-op returning without
error, for every argument value, and `getMarkdown` returns `""`. -/
theorem c9_noop_without_binding {E : Type} (api : TipTapAPI E)
    (beforeM afterM pfx md : String) (level : Nat) :
    Handle.insertText api none beforeM afterM = none ∧
    Handle.insertBlock api none pfx = none ∧
    Handle.setHeading api none level = none ∧
    Handle.toggleBulletList api none = none ∧
    Handle.toggleOrderedList api none = none ∧
    Handle.toggleTaskList api none = none ∧
    Handle.insertMarkdown api none md = none ∧
    Handle.setContent api none md = none ∧
    Handle.getMarkdown api none = "" :=
  ⟨rfl, rfl, rfl, rfl, rfl, rfl, rfl, rfl, rfl⟩

open EditorHistory in
/-- C4 (witness): the amended linear-history law at concrete distinct
contents, starting from initial content `"x"`. -/
theorem c4_witness :
    updateContentWithHistory
      (undo (undo (updateContentWithHistory (updateContentWithHistory
        (updateContentWithHistory (initState "x") "A") "B") "C")))
      "D" = { history := ["x", "A", "D"], historyIndex := 2,
              content := "D" } :=
  c4_amended_linear_history "x" "A" "B" "C" "D" (by decide) (by decide)
    (by decide) (by decide)
